import Mathlib

/-!
Verification development for the KyuDiscord/voice control plane
(`src/index.d.ts`).  The repository ships only its declaration surface, so
every behavioural definition below is modelled from the specification
(`spec.md`); each such definition carries a doc comment starting
`Modelled from the spec:` naming what is missing from `src/`.
-/

namespace Voice

/-- Node connection status, from `Status` in `src/index.d.ts` (lines 122-128). -/
inductive Status
  | connected
  | connecting
  | idle
  | disconnected
  | reconnecting
deriving DecidableEq, Repr

/-- A Discord voice-state update, from `VoiceStateUpdate` in `src/index.d.ts`
(lines 104-114).  Only the fields the pairing logic consumes are kept. -/
structure VoiceStateUpdate where
  guild_id : String
  channel_id : Option String
  user_id : String
  session_id : String
deriving DecidableEq, Repr

/-- A Discord voice-server update, from `VoiceServerUpdate` in
`src/index.d.ts` (lines 116-120). -/
structure VoiceServerUpdate where
  guild_id : String
  token : String
  endpoint : String
deriving DecidableEq, Repr

/-- An argument to `Link.provide`: either half of the voice grant. -/
inductive Update
  | state (v : VoiceStateUpdate)
  | server (v : VoiceServerUpdate)
deriving DecidableEq, Repr

/-- The composed voice-update payload sent to a node
(`{op: "voiceUpdate", guildId, sessionId, event: {token, endpoint}}`). -/
structure VoicePayload where
  guildId : String
  sessionId : String
  token : String
  endpoint : String
deriving DecidableEq, Repr

/-- An equalizer band, from `Band` in `src/index.d.ts` (lines 347-350). -/
structure Band where
  band : Nat
  gain : Rat
deriving DecidableEq, Repr

/-- First entry of an equalizer list carrying the given band index. -/
def bandLookup (l : List Band) (i : Nat) : Option Band :=
  l.find? (fun b => b.band = i)

/-- Replace an existing band by the incoming entry with the same index, if
one is provided. -/
def mergeBand (bands : List Band) (b : Band) : Band :=
  match bands.find? (fun nb => nb.band = b.band) with
  | some nb => nb
  | none => b

/-- Modelled from the spec: the body of `Player.setEqualizer` is not under
`src/` (only its declaration, `src/index.d.ts` line 338).  "when `merge` is
true, new bands overwrite existing entries by band index and unspecified
existing bands are preserved; when false, the equalizer is replaced
wholesale." -/
def setEqualizer (eq : List Band) (bands : List Band) (merge : Bool) : List Band :=
  if merge then
    eq.map (mergeBand bands)
    ++ bands.filter (fun nb => !(eq.any (fun b => b.band = nb.band)))
  else bands

/-- Statistics a node reports, abstracted to the three monotone penalty
components the spec names (player count, CPU/system load, frame loss). -/
structure NodeStats where
  playing : Nat
  cpuPenalty : Nat
  framePenalty : Nat
deriving DecidableEq, Repr

/-- Modelled from the spec: the body of the `LavalinkNode.penalties` getter is
not under `src/` (only its declaration, `src/index.d.ts` line 204).  "a score
computed from current player count, reported CPU/system load, and frame-loss
statistics (higher = worse)". -/
def penalties (s : NodeStats) : Nat :=
  s.playing + s.cpuPenalty + s.framePenalty

/-- One node of the pool as the manager sees it: identity, status, stats and
the guild index (`LavalinkNode.players` keys). -/
structure NodeState where
  id : String
  status : Status
  stats : NodeStats
  guilds : List String
deriving DecidableEq, Repr

/-- Insert a node into a penalty-sorted list, before the first node of
greater-or-equal penalty (so earlier-listed nodes win ties). -/
def insertByPenalty (n : NodeState) : List NodeState → List NodeState
  | [] => [n]
  | m :: ms =>
    if penalties n.stats ≤ penalties m.stats then n :: m :: ms
    else m :: insertByPenalty n ms

/-- Stable sort of nodes by ascending penalty. -/
def sortByPenalty : List NodeState → List NodeState
  | [] => []
  | n :: ns => insertByPenalty n (sortByPenalty ns)

/-- Modelled from the spec: the body of the `PlayerManager.idealNodes` getter
is not under `src/` (only its declaration, `src/index.d.ts` line 66).  "all
nodes with status `Connected`, ordered ascending by `penalties` (lowest
penalty first; ties broken by insertion order for determinism)". -/
def idealNodes (nodes : List NodeState) : List NodeState :=
  sortByPenalty (nodes.filter (fun n => n.status = .connected))

/-- `a` carries strictly more players and at-least-as-high load and frame
loss as `b` ("a node with more players and higher reported load" versus "an
otherwise-equal node with fewer"). -/
def moreLoaded (a b : NodeState) : Prop :=
  b.stats.playing < a.stats.playing ∧
  b.stats.cpuPenalty ≤ a.stats.cpuPenalty ∧
  b.stats.framePenalty ≤ a.stats.framePenalty

/-- Reconnection policy, from `ReconnectOptions` in `src/index.d.ts`
(lines 93-97), with the optional fields resolved to their effective values. -/
structure ReconnectPolicy where
  maxTries : Nat
  auto : Bool
  delay : Nat
deriving DecidableEq, Repr

/-- The reconnect-relevant state of one node connection
(`LavalinkNode.status` and `LavalinkNode.remainingTries`). -/
structure NodeConn where
  status : Status
  remainingTries : Nat
deriving DecidableEq, Repr

/-- Modelled from the spec: the body of `LavalinkNode.connect` is not under
`src/` (only its declaration, `src/index.d.ts` line 218).  "on transport
success and protocol handshake ... transitions to `Connected` and resets
`remainingTries` to the configured maximum."  This models a successful
manual connect. -/
def connectNode (p : ReconnectPolicy) (_n : NodeConn) : NodeConn :=
  { status := .connected, remainingTries := p.maxTries }

/-- Modelled from the spec: the closure handler feeding
`LavalinkNode.reconnect` is not under `src/` (only the declaration,
`src/index.d.ts` lines 233-235).  "On unexpected channel closure: if
`reconnection.auto` is enabled and `remainingTries > 0`, transition to
`Reconnecting`, decrement `remainingTries`, schedule a retry after
`reconnection.delay`; otherwise transition to `Disconnected`."  The boolean
reports whether a retry was scheduled. -/
def handleClose (p : ReconnectPolicy) (n : NodeConn) : NodeConn × Bool :=
  if p.auto = true ∧ 0 < n.remainingTries then
    ({ status := .reconnecting, remainingTries := n.remainingTries - 1 }, true)
  else
    ({ n with status := .disconnected }, false)

/-- Node state after `k` consecutive unexpected closures (each failed
reconnect attempt manifests as the next closure). -/
def closures (p : ReconnectPolicy) (n : NodeConn) : Nat → NodeConn
  | 0 => n
  | k + 1 => (handleClose p (closures p n k)).1

/-- A queued outgoing message with its priority flag (the `Payload` queue
behind `LavalinkNode.send`, `src/index.d.ts` lines 206-212 and 246-250). -/
structure QueuedMsg where
  priority : Bool
  data : String
deriving DecidableEq, Repr

/-- The send-queue view of one node: status, pending queue, and the ordered
log of transport writes. -/
structure SendState where
  status : Status
  queue : List QueuedMsg
  written : List String
deriving DecidableEq, Repr

/-- Modelled from the spec: the queueing inside `LavalinkNode.send` is not
under `src/` (only the declaration, `src/index.d.ts` line 212).  "Priority
messages are inserted ahead of non-priority ones already queued but never
reorder relative to other priority messages (stable, FIFO within priority
class)"; non-priority messages append at the back. -/
def enqueueMsg (q : List QueuedMsg) (m : QueuedMsg) : List QueuedMsg :=
  if m.priority then
    q.takeWhile (fun x => x.priority) ++ m :: q.dropWhile (fun x => x.priority)
  else q ++ [m]

/-- Modelled from the spec: "The queue drains one message at a time in
connection order; draining is paused while not `Connected`".  While
`Connected` every queued message reaches the transport, in queue order. -/
def drainQueue (s : SendState) : SendState :=
  if s.status = .connected then
    { s with queue := [], written := s.written ++ s.queue.map (fun x => x.data) }
  else s

/-- Modelled from the spec: `LavalinkNode.send` enqueues the message and lets
the drain loop run. -/
def sendMsg (s : SendState) (data : String) (priority : Bool) : SendState :=
  drainQueue { s with queue := enqueueMsg s.queue ⟨priority, data⟩ }

/-- Invariant of reachable queues: all priority messages form the front
block, every non-priority message sits behind them. -/
def priFirst (q : List QueuedMsg) : Prop :=
  ∃ a b, q = a ++ b ∧ (∀ x ∈ a, x.priority = true) ∧ (∀ x ∈ b, x.priority = false)

/-- The per-guild Link record, from `Link` in `src/index.d.ts` (lines
358-441): the immutable guild key and owned-player identity, the reassignable
node reference, the current channel, the two buffered voice-grant halves, the
last successfully sent voice session, and the loaded track. -/
structure Link where
  guildId : String
  playerId : Nat
  nodeId : String
  channelId : Option String
  pendingState : Option VoiceStateUpdate
  pendingServer : Option VoiceServerUpdate
  lastSession : Option VoicePayload
  track : Option String
deriving DecidableEq, Repr

/-- Modelled from the spec: the body of `Link.provide` is not under `src/`
(only the declaration, `src/index.d.ts` line 428).  Storing a voice-state
half: "A voice-state update is relevant only when it concerns the bot's own
session (others are ignored) and updates `channelId` (null channel id means
'left voice'). ... Receipt of a new voice-state update while a server grant
is already buffered for a different channel invalidates the stale server
grant (it is specific to a voice-channel session)".  The grant is dropped
only when the link currently sits on a channel and the update names a
different one; on a fresh link (no current channel) a buffered grant is
kept, so the spec's server-update-then-state-update scenario pairs and
sends. -/
def applyState (botId : String) (l : Link) (v : VoiceStateUpdate) : Link :=
  if v.user_id = botId then
    { l with
      channelId := v.channel_id
      pendingState := if v.channel_id.isSome then some v else none
      pendingServer :=
        if l.channelId.isSome = true ∧ ¬ v.channel_id = l.channelId then none
        else l.pendingServer }
  else l

/-- Modelled from the spec: "A voice-server update stores session token +
endpoint", overwriting any previously buffered grant. -/
def applyServer (l : Link) (v : VoiceServerUpdate) : Link :=
  { l with pendingServer := some v }

/-- The buffering phase of `Link.provide`: store whichever half arrived. -/
def storeUpdate (botId : String) (l : Link) : Update → Link
  | .state v => applyState botId l v
  | .server v => applyServer l v

/-- Modelled from the spec: the body of `Link.voiceUpdate` is not under
`src/` (only the declaration, `src/index.d.ts` line 435).  "composes the two
buffered halves into a single payload addressed to the owning Node
Connection ...; on success both buffered halves are cleared"; the sent
payload is retained as the current voice session for later migration. -/
def dispatchVoice (l : Link) : Link × Option VoicePayload :=
  match l.pendingState, l.pendingServer with
  | some st, some sv =>
    ({ l with
        pendingState := none
        pendingServer := none
        lastSession := some ⟨l.guildId, st.session_id, sv.token, sv.endpoint⟩ },
     some ⟨l.guildId, st.session_id, sv.token, sv.endpoint⟩)
  | _, _ => (l, none)

/-- `Link.provide`: store the incoming half, then, if both halves are
present, trigger `voiceUpdate`.  Returns the new link state and the payload
sent, if any. -/
def provide (botId : String) (l : Link) (u : Update) : Link × Option VoicePayload :=
  dispatchVoice (storeUpdate botId l u)

/-- Link state after a whole sequence of `provide` calls. -/
def provideAll (botId : String) (l : Link) : List Update → Link
  | [] => l
  | u :: us => provideAll botId (provide botId l u).1 us

/-- Invariant of reachable link states: any buffered voice-state half belongs
to the bot's own session and names the link's current, active channel; and
the two halves are never both left buffered (a completed pair is sent and
cleared at once). -/
def linkInv (botId : String) (l : Link) : Prop :=
  (∀ v, l.pendingState = some v →
    v.user_id = botId ∧ v.channel_id = l.channelId ∧ v.channel_id.isSome = true) ∧
  (l.pendingState = none ∨ l.pendingServer = none)

/-- The Pool Manager state: the node pool (insertion order), all Links, and
a counter allocating fresh Player identities. -/
structure ManagerState where
  nodes : List NodeState
  links : List Link
  nextId : Nat
deriving DecidableEq, Repr

/-- The Link currently registered for a guild, if any. -/
def findLink (m : ManagerState) (guild : String) : Option Link :=
  m.links.find? (fun l => l.guildId = guild)

/-- The fresh Link + Player pair constructed by `LavalinkNode.createPlayer`
(`src/index.d.ts` lines 220-224): empty voice session, default player. -/
def newLink (guild nodeId : String) (pid : Nat) : Link :=
  { guildId := guild, playerId := pid, nodeId := nodeId, channelId := none,
    pendingState := none, pendingServer := none, lastSession := none,
    track := none }

/-- Register a guild in the player index of the node carrying `nodeId`. -/
def indexGuild (nodes : List NodeState) (nodeId guild : String) : List NodeState :=
  nodes.map (fun n =>
    if n.id = nodeId then { n with guilds := n.guilds ++ [guild] } else n)

/-- Remove a guild from the player index of the node carrying `nodeId`. -/
def unindexGuild (nodes : List NodeState) (nodeId guild : String) : List NodeState :=
  nodes.map (fun n =>
    if n.id = nodeId then { n with guilds := n.guilds.erase guild } else n)

/-- How many node-index entries across the whole pool carry this guild. -/
def guildIndexCount (nodes : List NodeState) (guild : String) : Nat :=
  (nodes.map (fun n => n.guilds.count guild)).sum

/-- The node `PlayerManager.create` selects: the explicit argument when
given, else the head of `idealNodes`. -/
def chosenNode (m : ManagerState) (explicit : Option String) : Option NodeState :=
  match explicit with
  | some nid => m.nodes.find? (fun n => n.id = nid)
  | none => (idealNodes m.nodes).head?

/-- Modelled from the spec: the body of `PlayerManager.create` is not under
`src/` (only the declaration, `src/index.d.ts` line 78).  "if a Link already
exists for the guild, returns its existing Player unchanged (idempotent).
Otherwise selects a node (explicit argument, else the head of `idealNodes`)
— fails with a 'no available node' condition if none are connected — and
constructs a new Link + Player pair, indexed by guild id on both the Pool
Manager and the chosen Node Connection."  Returns the new manager state and
the id of the guild's Player, or `none` on failure. -/
def create (m : ManagerState) (guild : String) (explicit : Option String) :
    Option (ManagerState × Nat) :=
  match findLink m guild with
  | some l => some (m, l.playerId)
  | none =>
    match chosenNode m explicit with
    | none => none
    | some n =>
      some ({ nodes := indexGuild m.nodes n.id guild,
              links := m.links ++ [newLink guild n.id m.nextId],
              nextId := m.nextId + 1 }, m.nextId)

/-- The state `Link.move` acts on: the node pool plus the moving Link. -/
structure MoveCtx where
  nodes : List NodeState
  link : Link
deriving DecidableEq, Repr

/-- Modelled from the spec: the body of `Link.move` is not under `src/`
(only the declaration, `src/index.d.ts` line 412).  "atomically reassigns
`this.node` to the target, re-indexes the guild under the new node, and
resends the current voice session (if fully paired) and the current playback
state (if a track is loaded) ... Fails, leaving the Link unchanged, if the
target node is not `Connected`."  Returns the new context and `some` list of
resent operations on success, the untouched context and `none` on failure. -/
def move (ctx : MoveCtx) (targetId : String) : MoveCtx × Option (List String) :=
  match ctx.nodes.find? (fun n => n.id = targetId) with
  | none => (ctx, none)
  | some t =>
    if t.status = .connected then
      ({ nodes := indexGuild
            (unindexGuild ctx.nodes ctx.link.nodeId ctx.link.guildId)
            targetId ctx.link.guildId,
         link := { ctx.link with nodeId := targetId } },
       some ((match ctx.link.lastSession with
              | some _ => ["voiceUpdate"]
              | none => []) ++
             (match ctx.link.track with
              | some _ => ["play"]
              | none => [])))
    else (ctx, none)

/-- Modelled from the spec: the body of `Link.connect` is not under `src/`
(only the declaration, `src/index.d.ts` line 399).  It asks the gateway to
join/move/leave and does not wait for the resulting voice-state update;
"Passing a null channel requests disconnection and clears `channelId`." -/
def connectChannel (ctx : MoveCtx) (channel : Option String) : MoveCtx :=
  match channel with
  | none => { ctx with link := { ctx.link with channelId := none } }
  | some _ => ctx

/-- The operations that can touch a Link after construction. -/
inductive LinkOp
  | provideOp (u : Update)
  | connectOp (channel : Option String)
  | moveOp (targetId : String)
deriving DecidableEq, Repr

/-- One Link-level operation applied to the context. -/
def applyLinkOp (botId : String) (ctx : MoveCtx) : LinkOp → MoveCtx
  | .provideOp u => { ctx with link := (provide botId ctx.link u).1 }
  | .connectOp c => connectChannel ctx c
  | .moveOp t => (move ctx t).1

end Voice

namespace Voice

theorem insertByPenalty_perm (n : NodeState) (l : List NodeState) :
    List.Perm (insertByPenalty n l) (n :: l) := by
  induction l with
  | nil => simp [insertByPenalty]
  | cons m ms ih =>
    by_cases h : penalties n.stats ≤ penalties m.stats
    · simp [insertByPenalty, h]
    · simp only [insertByPenalty, if_neg h]
      exact (List.Perm.cons m ih).trans (List.Perm.swap n m ms)

theorem sortByPenalty_perm (l : List NodeState) :
    List.Perm (sortByPenalty l) l := by
  induction l with
  | nil => simp [sortByPenalty]
  | cons n ns ih =>
    exact (insertByPenalty_perm n (sortByPenalty ns)).trans (List.Perm.cons n ih)

theorem insertByPenalty_sorted (n : NodeState) (l : List NodeState)
    (h : l.Pairwise (fun a b => penalties a.stats ≤ penalties b.stats)) :
    (insertByPenalty n l).Pairwise (fun a b => penalties a.stats ≤ penalties b.stats) := by
  induction l with
  | nil => simp [insertByPenalty]
  | cons m ms ih =>
    rcases List.pairwise_cons.mp h with ⟨hm, hms⟩
    by_cases hc : penalties n.stats ≤ penalties m.stats
    · simp only [insertByPenalty, if_pos hc]
      refine List.pairwise_cons.mpr ⟨?_, h⟩
      intro x hx
      rcases List.mem_cons.mp hx with rfl | hx
      · exact hc
      · exact le_trans hc (hm x hx)
    · simp only [insertByPenalty, if_neg hc]
      refine List.pairwise_cons.mpr ⟨?_, ih hms⟩
      intro x hx
      have hx' := (insertByPenalty_perm n ms).mem_iff.mp hx
      rcases List.mem_cons.mp hx' with rfl | hx'
      · exact le_of_lt (lt_of_not_le hc)
      · exact hm x hx'

theorem sortByPenalty_sorted (l : List NodeState) :
    (sortByPenalty l).Pairwise (fun a b => penalties a.stats ≤ penalties b.stats) := by
  induction l with
  | nil => simp [sortByPenalty]
  | cons n ns ih => exact insertByPenalty_sorted n (sortByPenalty ns) ih

theorem insertByPenalty_filter_key (n : NodeState) (l : List NodeState) (p : Nat) :
    (insertByPenalty n l).filter (fun x => penalties x.stats = p) =
      if penalties n.stats = p then
        n :: l.filter (fun x => penalties x.stats = p)
      else l.filter (fun x => penalties x.stats = p) := by
  induction l with
  | nil =>
    by_cases h : penalties n.stats = p <;> simp [insertByPenalty, h]
  | cons m ms ih =>
    by_cases hc : penalties n.stats ≤ penalties m.stats
    · rw [insertByPenalty, if_pos hc]
      by_cases h : penalties n.stats = p <;> simp [h]
    · rw [insertByPenalty, if_neg hc]
      have hlt : penalties m.stats < penalties n.stats := lt_of_not_le hc
      by_cases h : penalties n.stats = p
      · have hm : ¬ penalties m.stats = p := by omega
        simp [List.filter_cons, hm, ih, h]
      · by_cases hm : penalties m.stats = p <;>
          simp [List.filter_cons, hm, ih, h]

theorem sortByPenalty_stable (l : List NodeState) (p : Nat) :
    (sortByPenalty l).filter (fun x => penalties x.stats = p) =
      l.filter (fun x => penalties x.stats = p) := by
  induction l with
  | nil => simp [sortByPenalty]
  | cons n ns ih =>
    by_cases h : penalties n.stats = p <;>
      simp [sortByPenalty, insertByPenalty_filter_key, h, List.filter_cons, ih]

theorem moreLoaded_penalties {a b : NodeState} (h : moreLoaded a b) :
    penalties b.stats < penalties a.stats := by
  rcases h with ⟨h1, h2, h3⟩
  unfold penalties
  omega

/-- C3: for every node pool, `idealNodes` is a permutation of exactly the
`Connected` nodes, its penalties are ascending, ties keep insertion order
(the subsequence at any fixed penalty is untouched), and a node with more
players and at-least-as-high load never ranks ahead of an otherwise-equal
node with fewer. -/
theorem idealNodes_spec (nodes : List NodeState) :
    List.Perm (idealNodes nodes) (nodes.filter (fun n => n.status = .connected)) ∧
    (idealNodes nodes).Pairwise (fun a b => penalties a.stats ≤ penalties b.stats) ∧
    (∀ p, (idealNodes nodes).filter (fun x => penalties x.stats = p) =
      (nodes.filter (fun n => n.status = .connected)).filter
        (fun x => penalties x.stats = p)) ∧
    (idealNodes nodes).Pairwise (fun a b => ¬ moreLoaded a b) := by
  refine ⟨sortByPenalty_perm _, sortByPenalty_sorted _, fun p => sortByPenalty_stable _ p, ?_⟩
  refine (sortByPenalty_sorted _).imp ?_
  intro a b hab hml
  exact absurd hab (not_le.mpr (moreLoaded_penalties hml))

theorem mergeBand_band (bands : List Band) (b : Band) :
    (mergeBand bands b).band = b.band := by
  unfold mergeBand
  cases hf : bands.find? (fun nb => nb.band = b.band) with
  | none => rfl
  | some nb =>
    have := List.find?_some hf
    simpa using this

theorem bandLookup_map_merge (bands eq : List Band) (i : Nat) :
    bandLookup (eq.map (mergeBand bands)) i =
      (bandLookup eq i).map (mergeBand bands) := by
  induction eq with
  | nil => rfl
  | cons b bs ih =>
    by_cases hb : b.band = i
    · unfold bandLookup
      rw [List.map_cons, List.find?_cons_of_pos _ (by simp [mergeBand_band, hb]),
        List.find?_cons_of_pos _ (by simp [hb])]
      rfl
    · unfold bandLookup
      rw [List.map_cons, List.find?_cons_of_neg _ (by simp [mergeBand_band, hb]),
        List.find?_cons_of_neg _ (by simp [hb])]
      exact ih

theorem bandLookup_filter_new (eq bands : List Band) (i : Nat)
    (h : bandLookup eq i = none) :
    bandLookup (bands.filter (fun nb => !(eq.any (fun b => b.band = nb.band)))) i =
      bandLookup bands i := by
  have hnone : ∀ x ∈ eq, ¬ x.band = i := by
    intro x hx
    have := List.find?_eq_none.mp h x hx
    simpa using this
  induction bands with
  | nil => rfl
  | cons nb rest ih =>
    by_cases hb : nb.band = i
    · have hkeep : eq.any (fun b => b.band = nb.band) = false := by
        rw [List.any_eq_false]
        intro x hx
        simp only [decide_eq_true_eq, hb]
        exact hnone x hx
      rw [List.filter_cons, hkeep, Bool.not_false, if_pos rfl]
      unfold bandLookup
      rw [List.find?_cons_of_pos _ (by simp [hb]), List.find?_cons_of_pos _ (by simp [hb])]
    · rw [List.filter_cons]
      by_cases hkeep : (!eq.any (fun b => b.band = nb.band)) = true
      · rw [if_pos hkeep]
        unfold bandLookup
        rw [List.find?_cons_of_neg _ (by simp [hb]), List.find?_cons_of_neg _ (by simp [hb])]
        exact ih
      · rw [if_neg hkeep]
        unfold bandLookup
        rw [List.find?_cons_of_neg _ (by simp [hb])]
        exact ih

theorem bandLookup_append (A B : List Band) (i : Nat) :
    bandLookup (A ++ B) i = (bandLookup A i).or (bandLookup B i) := by
  unfold bandLookup
  exact List.find?_append

/-- C8: `setEqualizer` with `merge = false` replaces the equalizer wholesale;
with `merge = true` the entry at every band index is the incoming band when
one is provided and the preserved existing band otherwise; and the spec's
scenario `[{0,0},{1,0.2}]` merged with `[{0,0.5}]` yields
`[{0,0.5},{1,0.2}]` (gains written as the rationals 1/5 and 1/2). -/
theorem setEqualizer_spec :
    (∀ eq bands, setEqualizer eq bands false = bands) ∧
    (∀ eq bands i, bandLookup (setEqualizer eq bands true) i =
      match bandLookup bands i with
      | some nb => some nb
      | none => bandLookup eq i) ∧
    setEqualizer [⟨0, 0⟩, ⟨1, mkRat 1 5⟩] [⟨0, mkRat 1 2⟩] true =
      [⟨0, mkRat 1 2⟩, ⟨1, mkRat 1 5⟩] := by
  refine ⟨fun eq bands => rfl, ?_, by decide⟩
  intro eq bands i
  rw [setEqualizer, if_pos rfl, bandLookup_append, bandLookup_map_merge]
  cases he : bandLookup eq i with
  | some b =>
    have he' := he
    unfold bandLookup at he'
    have hband : b.band = i := by simpa using List.find?_some he'
    simp only [Option.map_some', Option.or_some]
    cases hbb : bandLookup bands i with
    | some nb =>
      have hm : mergeBand bands b = nb := by
        unfold mergeBand
        rw [hband]
        unfold bandLookup at hbb
        rw [hbb]
      rw [hm]
    | none =>
      have hm : mergeBand bands b = b := by
        unfold mergeBand
        rw [hband]
        unfold bandLookup at hbb
        rw [hbb]
      rw [hm]
  | none =>
    rw [Option.map_none', Option.none_or, bandLookup_filter_new eq bands i he]
    cases bandLookup bands i with
    | some nb => rfl
    | none => rfl

theorem handleClose_pos {p : ReconnectPolicy} {n : NodeConn}
    (h : p.auto = true ∧ 0 < n.remainingTries) :
    handleClose p n =
      ({ status := .reconnecting, remainingTries := n.remainingTries - 1 }, true) := by
  rw [handleClose, if_pos h]

theorem handleClose_neg {p : ReconnectPolicy} {n : NodeConn}
    (h : ¬(p.auto = true ∧ 0 < n.remainingTries)) :
    handleClose p n = ({ n with status := .disconnected }, false) := by
  rw [handleClose, if_neg h]

theorem closures_tries (p : ReconnectPolicy) (n : NodeConn) (hauto : p.auto = true) :
    ∀ k, k ≤ p.maxTries →
      (closures p (connectNode p n) k).remainingTries = p.maxTries - k := by
  intro k
  induction k with
  | zero => intro _; rfl
  | succ k ih =>
    intro hk
    have htr := ih (Nat.le_of_succ_le hk)
    have hpos : 0 < (closures p (connectNode p n) k).remainingTries := by
      rw [htr]
      omega
    show (handleClose p (closures p (connectNode p n) k)).1.remainingTries = _
    rw [handleClose_pos ⟨hauto, hpos⟩]
    show (closures p (connectNode p n) k).remainingTries - 1 = p.maxTries - (k + 1)
    omega

theorem closures_tries_exhausted (p : ReconnectPolicy) (n : NodeConn) (hauto : p.auto = true) :
    ∀ j, p.maxTries ≤ j →
      (closures p (connectNode p n) j).remainingTries = 0 := by
  intro j
  induction j with
  | zero =>
    intro hj
    show (connectNode p n).remainingTries = 0
    show p.maxTries = 0
    omega
  | succ j ih =>
    intro hj
    by_cases hjm : p.maxTries ≤ j
    · have h0 := ih hjm
      show (handleClose p (closures p (connectNode p n) j)).1.remainingTries = 0
      rw [handleClose_neg (fun hc => by rw [h0] at hc; exact absurd hc.2 (by decide))]
      exact h0
    · have hje : j + 1 ≤ p.maxTries := by omega
      have := closures_tries p n hauto (j + 1) hje
      omega

/-- C4: with `auto` reconnection enabled, starting from a fresh successful
connect (which resets `remainingTries` to `maxTries`), each of the first
`maxTries` unexpected closures finds `remainingTries > 0`, decrements it,
moves the node to `Reconnecting` and schedules a retry; once those
`maxTries` attempts have failed, the next closure reaches `Disconnected` and
every later closure finds the node `Disconnected` with no retry scheduled. -/
theorem reconnect_budget (p : ReconnectPolicy) (n : NodeConn) (hauto : p.auto = true) :
    (connectNode p n).remainingTries = p.maxTries ∧
    (∀ k, k ≤ p.maxTries →
      (closures p (connectNode p n) k).remainingTries = p.maxTries - k) ∧
    (∀ k, k < p.maxTries →
      (handleClose p (closures p (connectNode p n) k)).2 = true ∧
      (closures p (connectNode p n) (k + 1)).status = .reconnecting) ∧
    (∀ j, p.maxTries ≤ j →
      (closures p (connectNode p n) (j + 1)).status = .disconnected ∧
      (handleClose p (closures p (connectNode p n) (j + 1))).2 = false) := by
  refine ⟨rfl, closures_tries p n hauto, ?_, ?_⟩
  · intro k hk
    have htr := closures_tries p n hauto k (Nat.le_of_lt hk)
    have hpos : 0 < (closures p (connectNode p n) k).remainingTries := by
      rw [htr]
      omega
    have hstep := handleClose_pos ⟨hauto, hpos⟩
    constructor
    · rw [hstep]
    · show (handleClose p (closures p (connectNode p n) k)).1.status = .reconnecting
      rw [hstep]
  · intro j hj
    have h0 := closures_tries_exhausted p n hauto j hj
    have hnc : ¬(p.auto = true ∧
        0 < (closures p (connectNode p n) j).remainingTries) :=
      fun hc => by rw [h0] at hc; exact absurd hc.2 (by decide)
    have hstep := handleClose_neg hnc
    have h0' : (closures p (connectNode p n) (j + 1)).remainingTries = 0 :=
      closures_tries_exhausted p n hauto (j + 1) (Nat.le_succ_of_le hj)
    constructor
    · show (handleClose p (closures p (connectNode p n) j)).1.status = .disconnected
      rw [hstep]
    · rw [handleClose_neg (fun hc => by rw [h0'] at hc; exact absurd hc.2 (by decide))]

/-- Concrete run of `reconnect_budget`: with `maxTries = 2`, after the two
failed attempts the third closure leaves the node `Disconnected`. -/
theorem reconnect_budget_witness :
    ((⟨2, true, 5000⟩ : ReconnectPolicy)).auto = true ∧
    (closures ⟨2, true, 5000⟩ (connectNode ⟨2, true, 5000⟩ ⟨.idle, 0⟩) 3).status =
      .disconnected :=
  ⟨by decide,
    ((reconnect_budget ⟨2, true, 5000⟩ ⟨.idle, 0⟩ (by decide)).2.2.2 2 (by decide)).1⟩

theorem takeWhile_dropWhile_split (a b : List QueuedMsg)
    (ha : ∀ x ∈ a, x.priority = true) (hb : ∀ x ∈ b, x.priority = false) :
    (a ++ b).takeWhile (fun x => x.priority) = a ∧
    (a ++ b).dropWhile (fun x => x.priority) = b := by
  induction a with
  | nil =>
    simp only [List.nil_append]
    cases b with
    | nil => exact ⟨rfl, rfl⟩
    | cons y ys =>
      have hy : y.priority = false := hb y (List.mem_cons_self y ys)
      constructor
      · rw [List.takeWhile_cons, hy]
        rfl
      · rw [List.dropWhile_cons, hy]
        rfl
  | cons x xs ih =>
    have hx : x.priority = true := ha x (List.mem_cons_self x xs)
    have ih' := ih (fun z hz => ha z (List.mem_cons_of_mem x hz))
    constructor
    · rw [List.cons_append, List.takeWhile_cons, hx, ih'.1]
      simp
    · rw [List.cons_append, List.dropWhile_cons, hx]
      simp [ih'.2]

theorem filter_split (a b : List QueuedMsg)
    (ha : ∀ x ∈ a, x.priority = true) (hb : ∀ x ∈ b, x.priority = false) :
    (a ++ b).filter (fun x => x.priority) = a ∧
    (a ++ b).filter (fun x => !x.priority) = b := by
  constructor
  · rw [List.filter_append]
    rw [List.filter_eq_self.mpr ha, List.filter_eq_nil_iff.mpr ?_, List.append_nil]
    intro x hx
    rw [hb x hx]
    decide
  · rw [List.filter_append]
    rw [List.filter_eq_nil_iff.mpr ?_, List.filter_eq_self.mpr ?_, List.nil_append]
    · intro x hx
      rw [hb x hx]
      decide
    · intro x hx
      rw [ha x hx]
      decide

theorem enqueue_pri_of_priFirst (q : List QueuedMsg) (d : String) (h : priFirst q) :
    enqueueMsg q ⟨true, d⟩ =
      q.filter (fun x => x.priority) ++ ⟨true, d⟩ :: q.filter (fun x => !x.priority) := by
  obtain ⟨a, b, rfl, ha, hb⟩ := h
  obtain ⟨ht, hd⟩ := takeWhile_dropWhile_split a b ha hb
  obtain ⟨hfa, hfb⟩ := filter_split a b ha hb
  rw [enqueueMsg, if_pos rfl, ht, hd, hfa, hfb]

theorem priFirst_enqueue (q : List QueuedMsg) (m : QueuedMsg) (h : priFirst q) :
    priFirst (enqueueMsg q m) := by
  obtain ⟨a, b, rfl, ha, hb⟩ := h
  by_cases hm : m.priority = true
  · obtain ⟨ht, hd⟩ := takeWhile_dropWhile_split a b ha hb
    rw [enqueueMsg, if_pos hm, ht, hd]
    refine ⟨a ++ [m], b, by simp, ?_, hb⟩
    intro x hx
    rcases List.mem_append.mp hx with hx | hx
    · exact ha x hx
    · rw [List.mem_singleton.mp hx]
      exact hm
  · rw [enqueueMsg, if_neg hm]
    refine ⟨a, b ++ [m], by simp, ha, ?_⟩
    intro x hx
    rcases List.mem_append.mp hx with hx | hx
    · exact hb x hx
    · rw [List.mem_singleton.mp hx]
      exact Bool.not_eq_true _ ▸ (Bool.eq_false_iff.mpr (fun hc => hm hc))

theorem mem_enqueue (q : List QueuedMsg) (m : QueuedMsg) : m ∈ enqueueMsg q m := by
  rw [enqueueMsg]
  by_cases h : m.priority = true
  · rw [if_pos h]
    exact List.mem_append.mpr (Or.inr (List.mem_cons_self m _))
  · rw [if_neg h]
    exact List.mem_append.mpr (Or.inr (List.mem_singleton.mpr rfl))

theorem sends_fifo (s : SendState) (a b : String) (pa pb : Bool)
    (h : s.status = .connected) :
    ∃ l₁ l₂, (sendMsg (sendMsg s a pa) b pb).written = l₁ ++ b :: l₂ ∧ a ∈ l₁ := by
  have h2 : ∀ m : QueuedMsg, enqueueMsg [] m = [m] := by
    intro m
    rw [enqueueMsg]
    cases hm : m.priority <;> simp [hm]
  refine ⟨s.written ++ (enqueueMsg s.queue ⟨pa, a⟩).map (fun x => x.data), [], ?_, ?_⟩
  · simp [sendMsg, drainQueue, h, h2]
  · refine List.mem_append.mpr (Or.inr ?_)
    exact List.mem_map.mpr ⟨⟨pa, a⟩, mem_enqueue s.queue ⟨pa, a⟩, rfl⟩

/-- C5: a priority message is inserted exactly between the already-queued
priority block and the already-queued non-priority messages (stable FIFO in
each class); the priority-block invariant is preserved by every enqueue; and
for two sends `A` then `B` issued while the node is `Connected`, `A`'s
transport write precedes `B`'s. -/
theorem send_order_spec (q : List QueuedMsg) (d : String) (m : QueuedMsg)
    (s : SendState) (a b : String) (pa pb : Bool) :
    (priFirst q → enqueueMsg q ⟨true, d⟩ =
      q.filter (fun x => x.priority) ++ ⟨true, d⟩ :: q.filter (fun x => !x.priority)) ∧
    (priFirst q → priFirst (enqueueMsg q m)) ∧
    (s.status = .connected →
      ∃ l₁ l₂, (sendMsg (sendMsg s a pa) b pb).written = l₁ ++ b :: l₂ ∧ a ∈ l₁) :=
  ⟨enqueue_pri_of_priFirst q d, priFirst_enqueue q m, sends_fifo s a b pa pb⟩

/-- Concrete run of `send_order_spec`: a queue holding one priority and one
bulk message, a priority insertion, and two sends on a connected node. -/
theorem send_order_spec_witness :
    (enqueueMsg [⟨true, "p1"⟩, ⟨false, "n1"⟩] ⟨true, "v"⟩ =
      List.filter (fun x => x.priority) [⟨true, "p1"⟩, ⟨false, "n1"⟩] ++
        ⟨true, "v"⟩ :: List.filter (fun x => !x.priority) [⟨true, "p1"⟩, ⟨false, "n1"⟩]) ∧
    priFirst (enqueueMsg [⟨true, "p1"⟩, ⟨false, "n1"⟩] ⟨false, "w"⟩) ∧
    (∃ l₁ l₂,
      (sendMsg (sendMsg ⟨.connected, [], []⟩ "a" false) "b" true).written =
        l₁ ++ "b" :: l₂ ∧ "a" ∈ l₁) :=
  ⟨(send_order_spec [⟨true, "p1"⟩, ⟨false, "n1"⟩] "v" ⟨false, "w"⟩ ⟨.connected, [], []⟩
      "a" "b" false true).1
      ⟨[⟨true, "p1"⟩], [⟨false, "n1"⟩], rfl, by decide, by decide⟩,
   (send_order_spec [⟨true, "p1"⟩, ⟨false, "n1"⟩] "v" ⟨false, "w"⟩ ⟨.connected, [], []⟩
      "a" "b" false true).2.1
      ⟨[⟨true, "p1"⟩], [⟨false, "n1"⟩], rfl, by decide, by decide⟩,
   (send_order_spec [⟨true, "p1"⟩, ⟨false, "n1"⟩] "v" ⟨false, "w"⟩ ⟨.connected, [], []⟩
      "a" "b" false true).2.2 rfl⟩

theorem dispatch_noFire {m : Link}
    (h : m.pendingState = none ∨ m.pendingServer = none) :
    dispatchVoice m = (m, none) := by
  rcases h with h | h
  · cases hv : m.pendingServer <;> simp [dispatchVoice, h, hv]
  · cases hs : m.pendingState <;> simp [dispatchVoice, h, hs]

theorem dispatch_fire {m : Link} {st : VoiceStateUpdate} {sv : VoiceServerUpdate}
    (hs : m.pendingState = some st) (hv : m.pendingServer = some sv) :
    dispatchVoice m =
      ({ m with
          pendingState := none
          pendingServer := none
          lastSession := some ⟨m.guildId, st.session_id, sv.token, sv.endpoint⟩ },
       some ⟨m.guildId, st.session_id, sv.token, sv.endpoint⟩) := by
  simp [dispatchVoice, hs, hv]

theorem dispatch_isSome (m : Link) :
    (dispatchVoice m).2.isSome = true ↔
      m.pendingState.isSome = true ∧ m.pendingServer.isSome = true := by
  cases hs : m.pendingState <;> cases hv : m.pendingServer <;>
    simp [dispatchVoice, hs, hv]

theorem dispatch_clears (m : Link) (h : (dispatchVoice m).2.isSome = true) :
    (dispatchVoice m).1.pendingState = none ∧
    (dispatchVoice m).1.pendingServer = none := by
  cases hs : m.pendingState <;> cases hv : m.pendingServer <;>
    simp_all [dispatchVoice]

theorem dispatch_atMostOne (m : Link) :
    (dispatchVoice m).1.pendingState = none ∨
    (dispatchVoice m).1.pendingServer = none := by
  cases hs : m.pendingState <;> cases hv : m.pendingServer <;>
    simp [dispatchVoice, hs, hv]

theorem store_part1 (botId : String) (l : Link) (u : Update)
    (h1 : ∀ v, l.pendingState = some v →
      v.user_id = botId ∧ v.channel_id = l.channelId ∧ v.channel_id.isSome = true) :
    ∀ v, (storeUpdate botId l u).pendingState = some v →
      v.user_id = botId ∧ v.channel_id = (storeUpdate botId l u).channelId ∧
      v.channel_id.isSome = true := by
  cases u with
  | server w =>
    intro v hv
    exact h1 v hv
  | state w =>
    intro v hv
    by_cases hw : w.user_id = botId
    · simp only [storeUpdate, applyState, if_pos hw] at hv ⊢
      cases hcc : w.channel_id with
      | none => simp [hcc] at hv
      | some c =>
        simp only [hcc, Option.isSome_some, if_pos rfl] at hv
        cases hv
        simp [hw, hcc]
    · simp only [storeUpdate, applyState, if_neg hw] at hv ⊢
      exact h1 v hv

theorem provide_inv (botId : String) (l : Link) (u : Update)
    (h : linkInv botId l) : linkInv botId (provide botId l u).1 := by
  obtain ⟨h1, _⟩ := h
  have hp1 := store_part1 botId l u h1
  constructor
  · intro v hv
    by_cases hfire : (storeUpdate botId l u).pendingState = none ∨
        (storeUpdate botId l u).pendingServer = none
    · rw [provide, dispatch_noFire hfire] at hv ⊢
      exact hp1 v hv
    · push_neg at hfire
      obtain ⟨hns, hnv⟩ := hfire
      obtain ⟨st, hst⟩ := Option.ne_none_iff_exists'.mp hns
      obtain ⟨sv, hsv⟩ := Option.ne_none_iff_exists'.mp hnv
      rw [provide, dispatch_fire hst hsv] at hv
      simp at hv
  · exact dispatch_atMostOne (storeUpdate botId l u)

theorem provideAll_inv (botId : String) (l : Link) (h : linkInv botId l) :
    ∀ us, linkInv botId (provideAll botId l us) := by
  intro us
  induction us generalizing l with
  | nil => exact h
  | cons u us ih => exact ih _ (provide_inv botId l u h)

/-- C1: along any sequence of `provide` calls from a well-formed link, the
next call sends a voice-update payload exactly when, after storing the
incoming half, both the most recent voice-state half and the most recent
voice-server half are buffered; any buffered state half belongs to the bot's
own session and names the link's current, active channel (so the two halves
agree on the same active channel); and after a successful send both buffered
halves are cleared. -/
theorem provide_send_iff (botId : String) (l₀ : Link) (h : linkInv botId l₀)
    (us : List Update) (u : Update) :
    ((provide botId (provideAll botId l₀ us) u).2.isSome = true ↔
      ((storeUpdate botId (provideAll botId l₀ us) u).pendingState.isSome = true ∧
       (storeUpdate botId (provideAll botId l₀ us) u).pendingServer.isSome = true)) ∧
    (∀ v, (storeUpdate botId (provideAll botId l₀ us) u).pendingState = some v →
      v.user_id = botId ∧
      v.channel_id = (storeUpdate botId (provideAll botId l₀ us) u).channelId ∧
      v.channel_id.isSome = true) ∧
    ((provide botId (provideAll botId l₀ us) u).2.isSome = true →
      (provide botId (provideAll botId l₀ us) u).1.pendingState = none ∧
      (provide botId (provideAll botId l₀ us) u).1.pendingServer = none) := by
  have hL := provideAll_inv botId l₀ h us
  exact ⟨dispatch_isSome (storeUpdate botId (provideAll botId l₀ us) u),
    store_part1 botId (provideAll botId l₀ us) u hL.1,
    dispatch_clears (storeUpdate botId (provideAll botId l₀ us) u)⟩

/-- Concrete run of `provide_send_iff` on the spec's scenario: a fresh link
receives a server grant and then the bot's own state update for channel
"c"; the pairing condition and the send coincide, and exactly this call
fires a send. -/
theorem provide_send_iff_witness :
    ((provide "bot"
        (provideAll "bot" ⟨"g", 0, "n", none, none, none, none, none⟩
          [Update.server ⟨"g", "tok", "end0"⟩])
        (Update.state ⟨"g", some "c", "bot", "sess"⟩)).2.isSome = true ↔
      ((storeUpdate "bot"
          (provideAll "bot" ⟨"g", 0, "n", none, none, none, none, none⟩
            [Update.server ⟨"g", "tok", "end0"⟩])
          (Update.state ⟨"g", some "c", "bot", "sess"⟩)).pendingState.isSome = true ∧
       (storeUpdate "bot"
          (provideAll "bot" ⟨"g", 0, "n", none, none, none, none, none⟩
            [Update.server ⟨"g", "tok", "end0"⟩])
          (Update.state ⟨"g", some "c", "bot", "sess"⟩)).pendingServer.isSome = true)) ∧
    (provide "bot"
        (provideAll "bot" ⟨"g", 0, "n", none, none, none, none, none⟩
          [Update.server ⟨"g", "tok", "end0"⟩])
        (Update.state ⟨"g", some "c", "bot", "sess"⟩)).2.isSome = true :=
  ⟨(provide_send_iff "bot" ⟨"g", 0, "n", none, none, none, none, none⟩
      ⟨(fun v hv => nomatch hv), Or.inl rfl⟩
      [Update.server ⟨"g", "tok", "end0"⟩]
      (Update.state ⟨"g", some "c", "bot", "sess"⟩)).1,
   (provide_send_iff "bot" ⟨"g", 0, "n", none, none, none, none, none⟩
      ⟨(fun v hv => nomatch hv), Or.inl rfl⟩
      [Update.server ⟨"g", "tok", "end0"⟩]
      (Update.state ⟨"g", some "c", "bot", "sess"⟩)).1.mpr (by decide)⟩

/-- C6: while a server grant is buffered for the link's current voice
channel, a bot voice-state update for a different channel sends nothing and
clears the stale grant; once a fresh grant then arrives it is paired with
the new state and exactly that payload is sent. -/
theorem provide_invalidates_stale (botId : String) (l : Link)
    (g : VoiceServerUpdate) (v : VoiceStateUpdate)
    (hg : l.pendingServer = some g) (hbot : v.user_id = botId)
    (hch0 : l.channelId.isSome = true)
    (hdiff : ¬ v.channel_id = l.channelId) :
    (provide botId l (.state v)).2 = none ∧
    (provide botId l (.state v)).1.pendingServer = none ∧
    (∀ g' : VoiceServerUpdate, v.channel_id.isSome = true →
      (provide botId (provide botId l (.state v)).1 (.server g')).2 =
        some ⟨l.guildId, v.session_id, g'.token, g'.endpoint⟩) := by
  have hst : storeUpdate botId l (.state v) =
      { l with
        channelId := v.channel_id
        pendingState := if v.channel_id.isSome then some v else none
        pendingServer := none } := by
    simp only [storeUpdate, applyState, if_pos hbot, if_pos (And.intro hch0 hdiff)]
  have hfire : dispatchVoice (storeUpdate botId l (.state v)) =
      (storeUpdate botId l (.state v), none) :=
    dispatch_noFire (by rw [hst]; exact Or.inr rfl)
  refine ⟨by rw [provide, hfire], by rw [provide, hfire, hst], ?_⟩
  intro g' hch
  have hl1 : (provide botId l (.state v)).1 = storeUpdate botId l (.state v) := by
    rw [provide, hfire]
  rw [provide, hl1]
  have hst2 : storeUpdate botId (storeUpdate botId l (.state v)) (.server g') =
      { l with
        channelId := v.channel_id
        pendingState := some v
        pendingServer := some g' } := by
    rw [hst]
    simp [storeUpdate, applyServer, hch]
  rw [hst2, dispatch_fire rfl rfl]

/-- Concrete run of `provide_invalidates_stale`: a grant for channel "old"
is invalidated by the bot's move to channel "c", then a fresh grant pairs
with the new state. -/
theorem provide_invalidates_stale_witness :
    (provide "bot" ⟨"g", 0, "n", some "old", none, some ⟨"g", "t0", "e0"⟩, none, none⟩
      (.state ⟨"g", some "c", "bot", "s"⟩)).2 = none ∧
    (provide "bot" ⟨"g", 0, "n", some "old", none, some ⟨"g", "t0", "e0"⟩, none, none⟩
      (.state ⟨"g", some "c", "bot", "s"⟩)).1.pendingServer = none ∧
    (provide "bot"
      (provide "bot" ⟨"g", 0, "n", some "old", none, some ⟨"g", "t0", "e0"⟩, none, none⟩
        (.state ⟨"g", some "c", "bot", "s"⟩)).1
      (.server ⟨"g", "t1", "e1"⟩)).2 = some ⟨"g", "s", "t1", "e1"⟩ :=
  ⟨(provide_invalidates_stale "bot"
      ⟨"g", 0, "n", some "old", none, some ⟨"g", "t0", "e0"⟩, none, none⟩
      ⟨"g", "t0", "e0"⟩ ⟨"g", some "c", "bot", "s"⟩ rfl rfl rfl (by decide)).1,
   (provide_invalidates_stale "bot"
      ⟨"g", 0, "n", some "old", none, some ⟨"g", "t0", "e0"⟩, none, none⟩
      ⟨"g", "t0", "e0"⟩ ⟨"g", some "c", "bot", "s"⟩ rfl rfl rfl (by decide)).2.1,
   (provide_invalidates_stale "bot"
      ⟨"g", 0, "n", some "old", none, some ⟨"g", "t0", "e0"⟩, none, none⟩
      ⟨"g", "t0", "e0"⟩ ⟨"g", some "c", "bot", "s"⟩ rfl rfl rfl (by decide)).2.2
      ⟨"g", "t1", "e1"⟩ rfl⟩

theorem findLink_create_new (links : List Link) (guild nid : String) (pid : Nat)
    (h : links.find? (fun l => l.guildId = guild) = none) :
    (links ++ [newLink guild nid pid]).find? (fun l => l.guildId = guild) =
      some (newLink guild nid pid) := by
  rw [List.find?_append, h, Option.none_or]
  rw [List.find?_cons_of_pos _ (by simp [newLink])]

/-- C2: `create` is idempotent — once a first call has produced a manager
state and a Player id for the guild, a second call (with any node argument)
returns exactly the same Player id and leaves the state untouched, so no
second Link is constructed. -/
theorem create_idem (m : ManagerState) (guild : String) (e₁ e₂ : Option String)
    (m₁ : ManagerState) (p : Nat) (h : create m guild e₁ = some (m₁, p)) :
    create m₁ guild e₂ = some (m₁, p) := by
  cases hf : findLink m guild with
  | some l =>
    simp only [create, hf, Option.some.injEq, Prod.mk.injEq] at h
    obtain ⟨rfl, rfl⟩ := h
    simp [create, hf]
  | none =>
    cases hc : chosenNode m e₁ with
    | none => simp [create, hf, hc] at h
    | some n =>
      simp only [create, hf, hc, Option.some.injEq, Prod.mk.injEq] at h
      obtain ⟨hm, hp⟩ := h
      have hlinks : m₁.links = m.links ++ [newLink guild n.id m.nextId] := by
        rw [← hm]
      have hfl : findLink m₁ guild = some (newLink guild n.id m.nextId) := by
        unfold findLink
        rw [hlinks]
        unfold findLink at hf
        exact findLink_create_new m.links guild n.id m.nextId hf
      simp only [create, hfl, Option.some.injEq, Prod.mk.injEq]
      exact ⟨trivial, hp⟩

/-- Concrete run of `create_idem`: the second `create` for guild "g" returns
the same Player id 0 and the unchanged manager state. -/
theorem create_idem_witness :
    create ⟨[⟨"A", Status.connected, ⟨0, 0, 0⟩, ["g"]⟩], [newLink "g" "A" 0], 1⟩
        "g" none =
      some (⟨[⟨"A", Status.connected, ⟨0, 0, 0⟩, ["g"]⟩], [newLink "g" "A" 0], 1⟩, 0) :=
  create_idem ⟨[⟨"A", Status.connected, ⟨0, 0, 0⟩, []⟩], [], 0⟩ "g" none none
    ⟨[⟨"A", Status.connected, ⟨0, 0, 0⟩, ["g"]⟩], [newLink "g" "A" 0], 1⟩ 0 (by decide)

theorem idealNodes_nil_of_none_connected (nodes : List NodeState)
    (h : ∀ n ∈ nodes, ¬ n.status = .connected) : idealNodes nodes = [] := by
  unfold idealNodes
  rw [List.filter_eq_nil_iff.mpr (by intro n hn; simpa using h n hn)]
  rfl

theorem indexGuild_id (nodes : List NodeState) (nid guild : String)
    (h : ∀ x ∈ nodes, ¬ x.id = nid) : indexGuild nodes nid guild = nodes := by
  induction nodes with
  | nil => rfl
  | cons n ns ih =>
    have hn : ¬ n.id = nid := h n (List.mem_cons_self n ns)
    have ht := ih (fun x hx => h x (List.mem_cons_of_mem n hx))
    simp only [indexGuild, List.map_cons, if_neg hn]
    simp only [indexGuild] at ht
    rw [ht]

theorem guildIndexCount_indexGuild (nodes : List NodeState) (nid guild : String)
    (hnd : nodes.Pairwise (fun a b => ¬ a.id = b.id))
    (hmem : ∃ n ∈ nodes, n.id = nid) :
    guildIndexCount (indexGuild nodes nid guild) guild =
      guildIndexCount nodes guild + 1 := by
  induction nodes with
  | nil =>
    obtain ⟨n, hn, _⟩ := hmem
    exact absurd hn (List.not_mem_nil n)
  | cons n ns ih =>
    rcases List.pairwise_cons.mp hnd with ⟨hhead, htail⟩
    by_cases hn : n.id = nid
    · have hnone : ∀ x ∈ ns, ¬ x.id = nid := by
        intro x hx hxid
        exact hhead x hx (by rw [hn, hxid])
      simp only [indexGuild, List.map_cons, if_pos hn]
      have ht := indexGuild_id ns nid guild hnone
      simp only [indexGuild] at ht
      rw [ht]
      simp only [guildIndexCount, List.map_cons, List.sum_cons]
      rw [List.count_append]
      simp [List.count_cons]
      omega
    · obtain ⟨x, hx, hxid⟩ := hmem
      rcases List.mem_cons.mp hx with rfl | hx'
      · exact absurd hxid hn
      · have hrec := ih htail ⟨x, hx', hxid⟩
        simp only [indexGuild, List.map_cons, if_neg hn]
        simp only [guildIndexCount, List.map_cons, List.sum_cons]
        simp only [indexGuild, guildIndexCount] at hrec
        omega

theorem chosenNode_mem (m : ManagerState) (e : Option String) (n : NodeState)
    (h : chosenNode m e = some n) : n ∈ m.nodes := by
  cases e with
  | some nid =>
    simp only [chosenNode] at h
    exact List.mem_of_find?_eq_some h
  | none =>
    simp only [chosenNode] at h
    have hmem : n ∈ idealNodes m.nodes := List.mem_of_mem_head? h
    have := (sortByPenalty_perm
      (m.nodes.filter (fun x => x.status = .connected))).mem_iff.mp hmem
    exact List.mem_of_mem_filter this

/-- C9: when no Link exists, `create` with no explicit node and no Connected
node fails ("no available node"); and any successful `create` selects the
explicit node when given, else the head of `idealNodes`, allocates the next
Player id, appends exactly one new Link for the guild (thereafter found by
guild id), and indexes the guild on the chosen node — with distinct node
ids, the pool-wide index count for the guild rises by exactly one. -/
theorem create_select (m : ManagerState) (guild : String) :
    (findLink m guild = none → (∀ n ∈ m.nodes, ¬ n.status = .connected) →
      create m guild none = none) ∧
    (∀ e m' p, findLink m guild = none → create m guild e = some (m', p) →
      ∃ n, chosenNode m e = some n ∧ n ∈ m.nodes ∧
        p = m.nextId ∧
        m'.links = m.links ++ [newLink guild n.id m.nextId] ∧
        findLink m' guild = some (newLink guild n.id m.nextId) ∧
        m'.nodes = indexGuild m.nodes n.id guild ∧
        (m.nodes.Pairwise (fun a b => ¬ a.id = b.id) →
          guildIndexCount m'.nodes guild = guildIndexCount m.nodes guild + 1)) := by
  constructor
  · intro h1 h2
    have hc : chosenNode m none = none := by
      unfold chosenNode
      rw [idealNodes_nil_of_none_connected m.nodes h2]
      rfl
    simp [create, h1, hc]
  · intro e m' p h1 hcr
    cases hc : chosenNode m e with
    | none => simp [create, h1, hc] at hcr
    | some n =>
      simp only [create, h1, hc, Option.some.injEq, Prod.mk.injEq] at hcr
      obtain ⟨hm, hp⟩ := hcr
      have hmem := chosenNode_mem m e n hc
      have hlinks : m'.links = m.links ++ [newLink guild n.id m.nextId] := by
        rw [← hm]
      have hnodes : m'.nodes = indexGuild m.nodes n.id guild := by
        rw [← hm]
      refine ⟨n, rfl, hmem, hp.symm, hlinks, ?_, hnodes, ?_⟩
      · unfold findLink
        rw [hlinks]
        unfold findLink at h1
        exact findLink_create_new m.links guild n.id m.nextId h1
      · intro hnd
        rw [hnodes]
        exact guildIndexCount_indexGuild m.nodes n.id guild hnd ⟨n, hmem, rfl⟩

/-- Concrete runs of `create_select`: creation fails with only an `Idle`
node in the pool, and succeeds picking the sole `Connected` node "A". -/
theorem create_select_witness :
    create ⟨[⟨"A", Status.idle, ⟨0, 0, 0⟩, []⟩], [], 0⟩ "g" none = none ∧
    (∃ n, chosenNode ⟨[⟨"A", Status.connected, ⟨0, 0, 0⟩, []⟩], [], 0⟩ none = some n ∧
      n ∈ (⟨[⟨"A", Status.connected, ⟨0, 0, 0⟩, []⟩], [], 0⟩ : ManagerState).nodes ∧
      (0 : Nat) = (⟨[⟨"A", Status.connected, ⟨0, 0, 0⟩, []⟩], [], 0⟩ : ManagerState).nextId ∧
      (⟨[⟨"A", Status.connected, ⟨0, 0, 0⟩, ["g"]⟩], [newLink "g" "A" 0], 1⟩ :
          ManagerState).links =
        (⟨[⟨"A", Status.connected, ⟨0, 0, 0⟩, []⟩], [], 0⟩ : ManagerState).links ++
          [newLink "g" n.id 0] ∧
      findLink ⟨[⟨"A", Status.connected, ⟨0, 0, 0⟩, ["g"]⟩], [newLink "g" "A" 0], 1⟩ "g" =
        some (newLink "g" n.id 0) ∧
      (⟨[⟨"A", Status.connected, ⟨0, 0, 0⟩, ["g"]⟩], [newLink "g" "A" 0], 1⟩ :
          ManagerState).nodes =
        indexGuild [⟨"A", Status.connected, ⟨0, 0, 0⟩, []⟩] n.id "g" ∧
      (([⟨"A", Status.connected, ⟨0, 0, 0⟩, []⟩] :
          List NodeState).Pairwise (fun a b => ¬ a.id = b.id) →
        guildIndexCount [⟨"A", Status.connected, ⟨0, 0, 0⟩, ["g"]⟩] "g" =
          guildIndexCount [⟨"A", Status.connected, ⟨0, 0, 0⟩, []⟩] "g" + 1)) :=
  ⟨(create_select ⟨[⟨"A", Status.idle, ⟨0, 0, 0⟩, []⟩], [], 0⟩ "g").1 rfl (by decide),
   (create_select ⟨[⟨"A", Status.connected, ⟨0, 0, 0⟩, []⟩], [], 0⟩ "g").2 none
     ⟨[⟨"A", Status.connected, ⟨0, 0, 0⟩, ["g"]⟩], [newLink "g" "A" 0], 1⟩ 0 rfl
     (by decide)⟩

theorem move_success (ctx : MoveCtx) (targetId : String) (t : NodeState)
    (h1 : ctx.nodes.find? (fun n => n.id = targetId) = some t)
    (h2 : t.status = .connected) :
    move ctx targetId =
      ({ nodes := indexGuild
            (unindexGuild ctx.nodes ctx.link.nodeId ctx.link.guildId)
            targetId ctx.link.guildId,
         link := { ctx.link with nodeId := targetId } },
       some ((match ctx.link.lastSession with
              | some _ => ["voiceUpdate"]
              | none => []) ++
             (match ctx.link.track with
              | some _ => ["play"]
              | none => []))) := by
  simp [move, h1, h2]

/-- C7: `move` against a missing or non-`Connected` target fails and leaves
the whole context (node indexing, link, channel, player binding) untouched;
against a `Connected` target it rewrites only the link's node reference,
reports the voice-session resend (when a session is paired) and the playback
resend (when a track is loaded), and — for a genuine node change — the guild
lands in the target's index and leaves the old node's index. -/
theorem move_spec (ctx : MoveCtx) (targetId : String) :
    (ctx.nodes.find? (fun n => n.id = targetId) = none →
      move ctx targetId = (ctx, none)) ∧
    (∀ t, ctx.nodes.find? (fun n => n.id = targetId) = some t →
      ¬ t.status = .connected → move ctx targetId = (ctx, none)) ∧
    (∀ t, ctx.nodes.find? (fun n => n.id = targetId) = some t →
      t.status = .connected →
      (move ctx targetId).1.link = { ctx.link with nodeId := targetId } ∧
      (move ctx targetId).2 =
        some ((match ctx.link.lastSession with
               | some _ => ["voiceUpdate"]
               | none => []) ++
              (match ctx.link.track with
               | some _ => ["play"]
               | none => [])) ∧
      (¬ ctx.link.nodeId = targetId →
        ({ t with guilds := t.guilds ++ [ctx.link.guildId] } ∈
            (move ctx targetId).1.nodes ∧
         ∀ o ∈ ctx.nodes, o.id = ctx.link.nodeId →
           { o with guilds := o.guilds.erase ctx.link.guildId } ∈
               (move ctx targetId).1.nodes ∧
             (o.guilds.count ctx.link.guildId ≤ 1 →
               ¬ ctx.link.guildId ∈ o.guilds.erase ctx.link.guildId)))) := by
  refine ⟨fun h => by simp [move, h], fun t h1 h2 => by simp [move, h1, h2], ?_⟩
  intro t h1 h2
  rw [move_success ctx targetId t h1 h2]
  refine ⟨rfl, rfl, ?_⟩
  intro h3
  have ht_id : t.id = targetId := by simpa using List.find?_some h1
  have hmem : t ∈ ctx.nodes := List.mem_of_find?_eq_some h1
  constructor
  · have hmem1 : t ∈ unindexGuild ctx.nodes ctx.link.nodeId ctx.link.guildId := by
      refine List.mem_map.mpr ⟨t, hmem, ?_⟩
      rw [if_neg (fun hh : t.id = ctx.link.nodeId => h3 (hh ▸ ht_id))]
    refine List.mem_map.mpr ⟨t, hmem1, ?_⟩
    rw [if_pos ht_id]
  · intro o ho hoid
    constructor
    · have hmem1 : { o with guilds := o.guilds.erase ctx.link.guildId } ∈
          unindexGuild ctx.nodes ctx.link.nodeId ctx.link.guildId := by
        refine List.mem_map.mpr ⟨o, ho, ?_⟩
        rw [if_pos hoid]
      refine List.mem_map.mpr
        ⟨{ o with guilds := o.guilds.erase ctx.link.guildId }, hmem1, ?_⟩
      rw [if_neg (fun hh => h3 (by rw [← hoid]; exact hh))]
    · intro hcount hmem2
      have hpos : 0 < (o.guilds.erase ctx.link.guildId).count ctx.link.guildId :=
        List.count_pos_iff.mpr hmem2
      rw [List.count_erase_self] at hpos
      omega

/-- Concrete runs of `move_spec`: moving guild "g" off node "A" fails when
"B" is idle, and when "B" is connected reassigns the link, resends both the
session and the track, indexes "g" under "B" and removes it from "A". -/
theorem move_spec_witness :
    move ⟨[⟨"A", Status.connected, ⟨0, 0, 0⟩, ["g"]⟩, ⟨"B", Status.idle, ⟨0, 0, 0⟩, []⟩],
        ⟨"g", 0, "A", some "c", none, none, some ⟨"g", "s", "t", "e"⟩, some "tr"⟩⟩ "B" =
      (⟨[⟨"A", Status.connected, ⟨0, 0, 0⟩, ["g"]⟩, ⟨"B", Status.idle, ⟨0, 0, 0⟩, []⟩],
        ⟨"g", 0, "A", some "c", none, none, some ⟨"g", "s", "t", "e"⟩, some "tr"⟩⟩, none) ∧
    (move ⟨[⟨"A", Status.connected, ⟨0, 0, 0⟩, ["g"]⟩,
        ⟨"B", Status.connected, ⟨0, 0, 0⟩, []⟩],
        ⟨"g", 0, "A", some "c", none, none, some ⟨"g", "s", "t", "e"⟩, some "tr"⟩⟩ "B").1.link =
      ⟨"g", 0, "B", some "c", none, none, some ⟨"g", "s", "t", "e"⟩, some "tr"⟩ ∧
    (move ⟨[⟨"A", Status.connected, ⟨0, 0, 0⟩, ["g"]⟩,
        ⟨"B", Status.connected, ⟨0, 0, 0⟩, []⟩],
        ⟨"g", 0, "A", some "c", none, none, some ⟨"g", "s", "t", "e"⟩, some "tr"⟩⟩ "B").2 =
      some ["voiceUpdate", "play"] ∧
    (⟨"B", Status.connected, ⟨0, 0, 0⟩, ["g"]⟩ : NodeState) ∈
      (move ⟨[⟨"A", Status.connected, ⟨0, 0, 0⟩, ["g"]⟩,
          ⟨"B", Status.connected, ⟨0, 0, 0⟩, []⟩],
          ⟨"g", 0, "A", some "c", none, none, some ⟨"g", "s", "t", "e"⟩, some "tr"⟩⟩ "B").1.nodes ∧
    (⟨"A", Status.connected, ⟨0, 0, 0⟩, []⟩ : NodeState) ∈
      (move ⟨[⟨"A", Status.connected, ⟨0, 0, 0⟩, ["g"]⟩,
          ⟨"B", Status.connected, ⟨0, 0, 0⟩, []⟩],
          ⟨"g", 0, "A", some "c", none, none, some ⟨"g", "s", "t", "e"⟩, some "tr"⟩⟩ "B").1.nodes ∧
    ¬ "g" ∈ (["g"].erase "g") :=
  ⟨(move_spec ⟨[⟨"A", Status.connected, ⟨0, 0, 0⟩, ["g"]⟩,
      ⟨"B", Status.idle, ⟨0, 0, 0⟩, []⟩],
      ⟨"g", 0, "A", some "c", none, none, some ⟨"g", "s", "t", "e"⟩, some "tr"⟩⟩ "B").2.1
      ⟨"B", Status.idle, ⟨0, 0, 0⟩, []⟩ rfl (by decide),
   ((move_spec ⟨[⟨"A", Status.connected, ⟨0, 0, 0⟩, ["g"]⟩,
      ⟨"B", Status.connected, ⟨0, 0, 0⟩, []⟩],
      ⟨"g", 0, "A", some "c", none, none, some ⟨"g", "s", "t", "e"⟩, some "tr"⟩⟩ "B").2.2
      ⟨"B", Status.connected, ⟨0, 0, 0⟩, []⟩ rfl rfl).1,
   ((move_spec ⟨[⟨"A", Status.connected, ⟨0, 0, 0⟩, ["g"]⟩,
      ⟨"B", Status.connected, ⟨0, 0, 0⟩, []⟩],
      ⟨"g", 0, "A", some "c", none, none, some ⟨"g", "s", "t", "e"⟩, some "tr"⟩⟩ "B").2.2
      ⟨"B", Status.connected, ⟨0, 0, 0⟩, []⟩ rfl rfl).2.1,
   (((move_spec ⟨[⟨"A", Status.connected, ⟨0, 0, 0⟩, ["g"]⟩,
      ⟨"B", Status.connected, ⟨0, 0, 0⟩, []⟩],
      ⟨"g", 0, "A", some "c", none, none, some ⟨"g", "s", "t", "e"⟩, some "tr"⟩⟩ "B").2.2
      ⟨"B", Status.connected, ⟨0, 0, 0⟩, []⟩ rfl rfl).2.2 (by decide)).1,
   ((((move_spec ⟨[⟨"A", Status.connected, ⟨0, 0, 0⟩, ["g"]⟩,
      ⟨"B", Status.connected, ⟨0, 0, 0⟩, []⟩],
      ⟨"g", 0, "A", some "c", none, none, some ⟨"g", "s", "t", "e"⟩, some "tr"⟩⟩ "B").2.2
      ⟨"B", Status.connected, ⟨0, 0, 0⟩, []⟩ rfl rfl).2.2 (by decide)).2
      ⟨"A", Status.connected, ⟨0, 0, 0⟩, ["g"]⟩ (by decide) rfl).1,
   ((((move_spec ⟨[⟨"A", Status.connected, ⟨0, 0, 0⟩, ["g"]⟩,
      ⟨"B", Status.connected, ⟨0, 0, 0⟩, []⟩],
      ⟨"g", 0, "A", some "c", none, none, some ⟨"g", "s", "t", "e"⟩, some "tr"⟩⟩ "B").2.2
      ⟨"B", Status.connected, ⟨0, 0, 0⟩, []⟩ rfl rfl).2.2 (by decide)).2
      ⟨"A", Status.connected, ⟨0, 0, 0⟩, ["g"]⟩ (by decide) rfl).2 (by decide)⟩

theorem store_ids (botId : String) (l : Link) (u : Update) :
    (storeUpdate botId l u).guildId = l.guildId ∧
    (storeUpdate botId l u).playerId = l.playerId ∧
    (storeUpdate botId l u).nodeId = l.nodeId := by
  cases u with
  | state v =>
    by_cases hv : v.user_id = botId <;> simp [storeUpdate, applyState, hv]
  | server v => simp [storeUpdate, applyServer]

theorem dispatch_ids (m : Link) :
    (dispatchVoice m).1.guildId = m.guildId ∧
    (dispatchVoice m).1.playerId = m.playerId ∧
    (dispatchVoice m).1.nodeId = m.nodeId := by
  cases hs : m.pendingState <;> cases hv : m.pendingServer <;>
    simp [dispatchVoice, hs, hv]

theorem provide_ids (botId : String) (l : Link) (u : Update) :
    (provide botId l u).1.guildId = l.guildId ∧
    (provide botId l u).1.playerId = l.playerId ∧
    (provide botId l u).1.nodeId = l.nodeId := by
  obtain ⟨h1, h2, h3⟩ := store_ids botId l u
  obtain ⟨g1, g2, g3⟩ := dispatch_ids (storeUpdate botId l u)
  exact ⟨by rw [provide, g1, h1], by rw [provide, g2, h2], by rw [provide, g3, h3]⟩

theorem move_link_ids (ctx : MoveCtx) (t : String) :
    (move ctx t).1.link.guildId = ctx.link.guildId ∧
    (move ctx t).1.link.playerId = ctx.link.playerId := by
  cases hf : ctx.nodes.find? (fun n => n.id = t) with
  | none => simp [move, hf]
  | some n =>
    by_cases hs : n.status = .connected <;> simp [move, hf, hs]

theorem connect_link_ids (ctx : MoveCtx) (c : Option String) :
    (connectChannel ctx c).link.guildId = ctx.link.guildId ∧
    (connectChannel ctx c).link.playerId = ctx.link.playerId ∧
    (connectChannel ctx c).link.nodeId = ctx.link.nodeId := by
  cases c <;> simp [connectChannel]

/-- C10: across every Link-level operation the guild key and the owned
Player identity of the link are unchanged — the guild/player/link triple is
fixed at construction — while the node reference is left untouched by
`provide` and `connect` and is reassigned exactly by a successful `move`, so
the player's node always denotes the link's current node. -/
theorem link_binding_immutable (botId : String) (ctx : MoveCtx) (op : LinkOp) :
    (applyLinkOp botId ctx op).link.guildId = ctx.link.guildId ∧
    (applyLinkOp botId ctx op).link.playerId = ctx.link.playerId ∧
    (∀ u, (applyLinkOp botId ctx (.provideOp u)).link.nodeId = ctx.link.nodeId) ∧
    (∀ c, (applyLinkOp botId ctx (.connectOp c)).link.nodeId = ctx.link.nodeId) ∧
    (∀ t tn, ctx.nodes.find? (fun n => n.id = t) = some tn →
      tn.status = .connected →
      (applyLinkOp botId ctx (.moveOp t)).link.nodeId = t) := by
  refine ⟨?_, ?_, ?_, ?_, ?_⟩
  · cases op with
    | provideOp u => exact (provide_ids botId ctx.link u).1
    | connectOp c => exact (connect_link_ids ctx c).1
    | moveOp t => exact (move_link_ids ctx t).1
  · cases op with
    | provideOp u => exact (provide_ids botId ctx.link u).2.1
    | connectOp c => exact (connect_link_ids ctx c).2.1
    | moveOp t => exact (move_link_ids ctx t).2
  · intro u
    exact (provide_ids botId ctx.link u).2.2
  · intro c
    exact (connect_link_ids ctx c).2.2
  · intro t tn h1 h2
    show (move ctx t).1.link.nodeId = t
    rw [move_success ctx t tn h1 h2]

/-- Concrete run of `link_binding_immutable`: a `move` to connected node "B"
keeps guild "g" and player 0 bound to the link and retargets only the node
reference. -/
theorem link_binding_immutable_witness :
    (applyLinkOp "bot"
      ⟨[⟨"B", Status.connected, ⟨0, 0, 0⟩, []⟩],
        ⟨"g", 0, "A", none, none, none, none, none⟩⟩
      (.moveOp "B")).link.guildId = "g" ∧
    (applyLinkOp "bot"
      ⟨[⟨"B", Status.connected, ⟨0, 0, 0⟩, []⟩],
        ⟨"g", 0, "A", none, none, none, none, none⟩⟩
      (.moveOp "B")).link.playerId = 0 ∧
    (applyLinkOp "bot"
      ⟨[⟨"B", Status.connected, ⟨0, 0, 0⟩, []⟩],
        ⟨"g", 0, "A", none, none, none, none, none⟩⟩
      (.moveOp "B")).link.nodeId = "B" :=
  ⟨(link_binding_immutable "bot"
      ⟨[⟨"B", Status.connected, ⟨0, 0, 0⟩, []⟩],
        ⟨"g", 0, "A", none, none, none, none, none⟩⟩ (.moveOp "B")).1,
   (link_binding_immutable "bot"
      ⟨[⟨"B", Status.connected, ⟨0, 0, 0⟩, []⟩],
        ⟨"g", 0, "A", none, none, none, none, none⟩⟩ (.moveOp "B")).2.1,
   (link_binding_immutable "bot"
      ⟨[⟨"B", Status.connected, ⟨0, 0, 0⟩, []⟩],
        ⟨"g", 0, "A", none, none, none, none, none⟩⟩ (.moveOp "B")).2.2.2.2
      "B" ⟨"B", Status.connected, ⟨0, 0, 0⟩, []⟩ rfl rfl⟩

end Voice
